import Mathlib

/-!
# Permission-aware SFTP server (`sftp/sftp_server`, `sftp/config`)

A shallow embedding of the session-authorization and request-dispatch layer:

* `sftp/config/config.go`      : `Config`, `ServerConfig`, `UserConfig`, `Permissions`
* `sftp/sftp_server/handler.go`: `permissionHandler`, `checkPermission`, `Fileread`,
  `Filewrite`, `Filecmd`, `Filelist`, `dirLister.ListAt`
* `sftp/sftp_server/sftp_server.go`: `authenticateUser`, `newPermissionHandler`,
  `getUserConfig`

Conventions of the embedding.

* Go strings are Lean `String`s; the path functions work on the character list.
* A Go `error` result is an `Option GoError` (`none` is `nil`).
* A run-time panic (nil dereference, index out of range) is `Except.error` with a `Panic`.
* Calls into package `os` are recorded in order in a list of `FsCall`; what the operating
  system answers is given by an `OS` record, so the handlers are pure functions.
* `fmt.Printf` output is not recorded; the evaluation of its arguments is (it can panic).
-/

namespace Sftp

/-! ## `sftp/config/config.go` -/

/-- Go `config.Permissions`. -/
structure Permissions where
  Path : String
  Read : Bool
  Write : Bool
  Cmd : Bool
  List : Bool
  deriving DecidableEq, Repr

/-- Go `config.UserConfig`. -/
structure UserConfig where
  Username : String
  Password : String
  Permissions : List Permissions
  deriving DecidableEq, Repr

/-- Go `config.ServerConfig`. -/
structure ServerConfig where
  Host : String
  Port : Int
  RootPath : String
  deriving DecidableEq, Repr

/-- Go `config.Config`. -/
structure Config where
  Server : ServerConfig
  Users : List UserConfig
  deriving DecidableEq, Repr

/-! ## Errors and panics -/

/-- The Go `error` values that occur in the server. -/
inductive GoError where
  /-- The value `os.ErrPermission`. -/
  | ErrPermission
  /-- The value `io.EOF`. -/
  | EOF
  /-- The value `sftp.ErrSSHFxOpUnsupported`. -/
  | ErrSSHFxOpUnsupported
  /-- A value built by `fmt.Errorf format args...` or `errors.New format`. -/
  | errorf (format : String) (args : List String)
  /-- An error reported by the operating system for a file-system call. -/
  | errno (code : Nat)
  deriving DecidableEq, Repr

/-- Go run-time panics. -/
inductive Panic where
  /-- A field access through a nil pointer. -/
  | nilDereference
  /-- An index expression `a[i]` with `i` outside `0 ≤ i < len`. -/
  | indexOutOfRange (i : Int) (len : Nat)
  /-- A slice expression `a[i:]` with `i` outside `0 ≤ i ≤ len`. -/
  | sliceOutOfRange (i : Int) (len : Nat)
  deriving DecidableEq, Repr

/-! ## Package `path/filepath` of the Go standard library, Unix build

`handler.go` and `sftp_server.go` call `filepath.Join`, `filepath.Rel` and `filepath.Dir`.
They are not part of the repository; the definitions below follow the algorithm of the
standard library's Unix implementation (separator `/`, empty volume name). A loop
`for cond { body }` becomes a function recursive on a step budget that is at least the
number of iterations the loop can make (every iteration advances a read index).
`Rel_library_examples` below evaluates `Rel` on rows of the library's test table.
-/

namespace filepath

/-- Go `os.IsPathSeparator` on Unix. -/
def isSep (c : Char) : Bool := c == '/'

/-- Byte `s[i]` (only used with `i < len(s)`). -/
def idx (s : List Char) (i : Nat) : Char := s.getD i ' '

/-- Slice `s[a:b]`. -/
def slice (s : List Char) (a b : Nat) : List Char := (s.take b).drop a

/-- The backtracking of `Clean` at a `..` element,
`out.w--; for out.w > dotdot && !IsPathSeparator(out.index(out.w)) { out.w-- }`,
called with the current `out.w`; returns the new `out.w`. -/
def backtrack (buf : List Char) (dotdot : Nat) : Nat → Nat
  | 0 => 0
  | w + 1 => if dotdot < w && !isSep (idx buf w) then backtrack buf dotdot w else w

/-- The main loop `for r < n { switch ... }` of `Clean`; `out` is the written part
`buf[:out.w]` of the output buffer. -/
def cleanLoop (path : List Char) (rooted : Bool) :
    Nat → Nat → List Char → Nat → List Char
  | 0, _, out, _ => out
  | fuel + 1, r, out, dotdot =>
    let n := path.length
    if r < n then
      if isSep (idx path r) then
        -- empty path element
        cleanLoop path rooted fuel (r + 1) out dotdot
      else if idx path r == '.' && (r + 1 == n || isSep (idx path (r + 1))) then
        -- . element
        cleanLoop path rooted fuel (r + 1) out dotdot
      else if idx path r == '.' && idx path (r + 1) == '.' &&
          (r + 2 == n || isSep (idx path (r + 2))) then
        -- .. element: remove to last separator
        if dotdot < out.length then
          -- can backtrack
          cleanLoop path rooted fuel (r + 2) (out.take (backtrack out dotdot out.length)) dotdot
        else if !rooted then
          -- cannot backtrack, but not rooted, so append .. element
          let out1 := if 0 < out.length then out ++ ['/'] else out
          let out2 := out1 ++ ['.', '.']
          cleanLoop path rooted fuel (r + 2) out2 out2.length
        else
          cleanLoop path rooted fuel (r + 2) out dotdot
      else
        -- real path element: add slash if needed, copy element
        let out1 :=
          if (rooted && out.length != 1) || (!rooted && out.length != 0) then out ++ ['/']
          else out
        let elem := (path.drop r).takeWhile (fun c => !isSep c)
        cleanLoop path rooted fuel (r + elem.length) (out1 ++ elem) dotdot
    else out

/-- Go `filepath.Clean` on the bytes of the path. -/
def cleanChars (path : List Char) : List Char :=
  if path = [] then ['.']
  else
    let rooted := isSep (idx path 0)
    let out := cleanLoop path rooted path.length (if rooted then 1 else 0)
      (if rooted then ['/'] else []) (if rooted then 1 else 0)
    -- Turn empty string into "."
    if out.length = 0 then ['.'] else out

/-- Go `filepath.Clean`. -/
def Clean (path : String) : String := String.mk (cleanChars path.toList)

/-- Go `strings.Join(elem, "/")`. -/
def joinSep : List String → String
  | [] => ""
  | [e] => e
  | e :: es => e ++ "/" ++ joinSep es

/-- Go `filepath.Join`: the first non-empty element and all that follow, joined with the
separator and cleaned; the empty string when every element is empty. -/
def Join : List String → String
  | [] => ""
  | e :: es => if e ≠ "" then Clean (joinSep (e :: es)) else Join es

/-- The position of the next separator at or after `i`:
`for i < len(s) && s[i] != Separator { i++ }`. -/
def skipElem (s : List Char) (i : Nat) : Nat :=
  i + ((s.drop i).takeWhile (fun c => !isSep c)).length

/-- The scan of `Rel` that positions `base[b0:bi]` and `targ[t0:ti]` at the first differing
elements; returns `(b0, bi, t0, ti)`. It goes on while either path has bytes left: when one
path is used up its element is empty, and the next element of the other path is the
differing one. So a base that goes on with `..` where the target has ended is found by the
test `base[b0:bi] == ".."` of `Rel`, and `Rel("../..", "..")` is an error. -/
def relLoop (base targ : List Char) : Nat → Nat → Nat → Nat → Nat → Nat × Nat × Nat × Nat
  | 0, b0, bi, t0, ti => (b0, bi, t0, ti)
  | fuel + 1, b0, bi, t0, ti =>
    let bl := base.length
    let tl := targ.length
    if bi < bl || ti < tl then
      let bi1 := skipElem base bi
      let ti1 := skipElem targ ti
      if slice targ t0 ti1 != slice base b0 bi1 then (b0, bi1, t0, ti1)
      else
        let bi2 := if bi1 < bl then bi1 + 1 else bi1
        let ti2 := if ti1 < tl then ti1 + 1 else ti1
        relLoop base targ fuel bi2 bi2 ti2 ti2
    else (b0, bi, t0, ti)

/-- The error of `Rel`: `errors.New("Rel: can't make " + targpath + " relative to " +
basepath)`. -/
def relError (basepath targpath : String) : GoError :=
  GoError.errorf ("Rel: can't make " ++ targpath ++ " relative to " ++ basepath) []

/-- Go `filepath.Rel`: a relative path that is lexically equivalent to `targpath` when
joined to `basepath`, or an error. -/
def Rel (basepath targpath : String) : String × Option GoError :=
  let base0 := cleanChars basepath.toList
  let targ := cleanChars targpath.toList
  if targ = base0 then (".", none)
  else
    let base := if base0 = ['.'] then [] else base0
    -- Can't use IsAbs - `\a` and `a` are both relative in Windows.
    let baseSlashed := 0 < base.length && idx base 0 == '/'
    let targSlashed := 0 < targ.length && idx targ 0 == '/'
    if baseSlashed != targSlashed then ("", some (relError basepath targpath))
    else
      let bl := base.length
      let tl := targ.length
      match relLoop base targ (bl + tl + 1) 0 0 0 0 with
      | (b0, bi, t0, _) =>
        if slice base b0 bi = ['.', '.'] then ("", some (relError basepath targpath))
        else if b0 != bl then
          -- Base elements left. Must go up before going down.
          let seps := (slice base b0 bl).count '/'
          let ups := ['.', '.'] ++ (List.replicate seps ['/', '.', '.']).flatten
          let down := if t0 != tl then '/' :: targ.drop t0 else []
          (String.mk (ups ++ down), none)
        else (String.mk (targ.drop t0), none)

/-- Go `filepath.Dir`: all but the last element of the path, cleaned. The scan
`for i >= 0 && !IsPathSeparator(path[i]) { i-- }` stops after the last separator, so
`path[:i+1]` is the path without the bytes that follow the last separator. -/
def Dir (path : String) : String :=
  let p := path.toList
  let tail := (p.reverse.takeWhile (fun c => !isSep c)).length
  String.mk (cleanChars (p.take (p.length - tail)))

/-! ### Rooted, cleaned paths

The request server of the SFTP library hands the handlers rooted, cleaned paths: `/`, or
`/e1/.../en` with elements that are non-empty, without separator, and neither `.` nor `..`.
The definitions below name this form; the session root `/data/alice` has it as well.
-/

end filepath

/-! ## The operating system seen from the handlers -/

/-- Go `*os.File`, identified by the name it was opened with. -/
structure File where
  name : String
  deriving DecidableEq, Repr

/-- Go `os.FileInfo`, as far as a directory entry is told apart from another. -/
structure FileInfo where
  Name : String
  Size : Int
  IsDir : Bool
  deriving DecidableEq, Repr

/-- A call into package `os` made by a handler. -/
inductive FsCall where
  | Open (name : String)
  | MkdirAll (path : String) (perm : Nat)
  | Create (name : String)
  | Remove (name : String)
  | Rename (oldpath newpath : String)
  | Mkdir (name : String) (perm : Nat)
  | Stat (name : String)
  | Lstat (name : String)
  | Readlink (name : String)
  | Readdir (name : String) (n : Int)
  | Close (name : String)
  deriving DecidableEq, Repr

/-- What the operating system answers: the error of each call (`none` is success) and the
entries of each directory. -/
structure OS where
  err : FsCall → Option GoError
  entries : String → List FileInfo

/-- The run of a handler: the calls into package `os` it made, in order, and either the
values it returned or the panic that ended it. -/
structure Exec (α : Type) where
  calls : List FsCall
  result : Except Panic α

/-! ## Go maps with string keys and values -/

/-- Go `map[string]string`: a list of entries with distinct keys. -/
abbrev StrMap := List (String × String)

/-- Go `v, ok := m[k]`. -/
def StrMap.get? : StrMap → String → Option String
  | [], _ => none
  | (k1, v1) :: m, k => if k1 = k then some v1 else StrMap.get? m k

/-- Go `m[k] = v`. -/
def StrMap.set : StrMap → String → String → StrMap
  | [], k, v => [(k, v)]
  | (k1, v1) :: m, k, v => if k1 = k then (k, v) :: m else (k1, v1) :: StrMap.set m k v

namespace ssh

/-- Go `ssh.Permissions` (its `Extensions` map). -/
structure Permissions where
  Extensions : StrMap
  deriving DecidableEq, Repr

end ssh

/-! ## `sftp/sftp_server/handler.go` -/

/-- Go `sftp.Request`, the fields the handlers read. -/
structure Request where
  Method : String
  Filepath : String
  Target : String
  deriving DecidableEq, Repr

/-- Go `permissionHandler`. `userConfig` is a pointer into the configuration's user list
(`none` is the nil pointer); the configuration is never written, so the record stands for
the pointer. -/
structure permissionHandler where
  userConfig : Option UserConfig
  rootPath : String
  readPerm : Bool
  writePerm : Bool
  cmdPerm : Bool
  listPerm : Bool
  deriving DecidableEq, Repr

/-- Go `permissionHandler.checkPermission`. -/
def permissionHandler.checkPermission (h : permissionHandler) (path : String)
    (hasPermission : Bool) : Option GoError :=
  match h.userConfig with
  | none => some GoError.ErrPermission
  | some _ =>
    -- Convert to absolute path within the user's root
    let absPath := filepath.Join [h.rootPath, path]
    match filepath.Rel h.rootPath absPath with
    | (_, some _) => some GoError.ErrPermission
    | (_, none) =>
      if !hasPermission then some GoError.ErrPermission
      else none

/-- The expression `h.userConfig.Username`, an argument of the `fmt.Printf` call in the
denial branch of each handler: a field read through the pointer `h.userConfig`. -/
def permissionHandler.userConfigUsername (h : permissionHandler) : Except Panic String :=
  match h.userConfig with
  | none => Except.error Panic.nilDereference
  | some u => Except.ok u.Username

/-- Go `os.Open`, `os.Create`: the file, or the error of the call. -/
def OS.file (os : OS) (call : FsCall) (name : String) : Option File × Option GoError :=
  match os.err call with
  | some e => (none, some e)
  | none => (some ⟨name⟩, none)

/-- Go `permissionHandler.Fileread`. -/
def permissionHandler.Fileread (os : OS) (h : permissionHandler) (r : Request) :
    Exec (Option File × Option GoError) :=
  match h.checkPermission r.Filepath h.readPerm with
  | some err =>
    match h.userConfigUsername with
    | Except.error p => ⟨[], Except.error p⟩
    | Except.ok _ => ⟨[], Except.ok (none, some err)⟩
  | none =>
    let name := filepath.Join [h.rootPath, r.Filepath]
    ⟨[FsCall.Open name], Except.ok (os.file (FsCall.Open name) name)⟩

/-- Go `permissionHandler.Filewrite`. -/
def permissionHandler.Filewrite (os : OS) (h : permissionHandler) (r : Request) :
    Exec (Option File × Option GoError) :=
  match h.checkPermission r.Filepath h.writePerm with
  | some err =>
    match h.userConfigUsername with
    | Except.error p => ⟨[], Except.error p⟩
    | Except.ok _ => ⟨[], Except.ok (none, some err)⟩
  | none =>
    -- Create parent directories if they don't exist
    let fullPath := filepath.Join [h.rootPath, r.Filepath]
    let mk := FsCall.MkdirAll (filepath.Dir fullPath) 0o755
    match os.err mk with
    | some err => ⟨[mk], Except.ok (none, some err)⟩
    | none => ⟨[mk, FsCall.Create fullPath], Except.ok (os.file (FsCall.Create fullPath) fullPath)⟩

/-- Go `permissionHandler.Filecmd`. -/
def permissionHandler.Filecmd (os : OS) (h : permissionHandler) (r : Request) :
    Exec (Option GoError) :=
  match h.checkPermission r.Filepath h.cmdPerm with
  | some err =>
    match h.userConfigUsername with
    | Except.error p => ⟨[], Except.error p⟩
    | Except.ok _ => ⟨[], Except.ok (some err)⟩
  | none =>
    let path := filepath.Join [h.rootPath, r.Filepath]
    -- Implement file operations (remove, rename, etc.)
    if r.Method = "Remove" then
      ⟨[FsCall.Remove path], Except.ok (os.err (FsCall.Remove path))⟩
    else if r.Method = "Rename" then
      let targetPath := filepath.Join [h.rootPath, r.Target]
      ⟨[FsCall.Rename path targetPath], Except.ok (os.err (FsCall.Rename path targetPath))⟩
    else if r.Method = "Mkdir" then
      ⟨[FsCall.Mkdir path 0o755], Except.ok (os.err (FsCall.Mkdir path 0o755))⟩
    else if r.Method = "Stat" then
      ⟨[FsCall.Stat path], Except.ok (os.err (FsCall.Stat path))⟩
    else if r.Method = "Lstat" then
      ⟨[FsCall.Lstat path], Except.ok (os.err (FsCall.Lstat path))⟩
    else if r.Method = "Readlink" then
      ⟨[FsCall.Readlink path], Except.ok (os.err (FsCall.Readlink path))⟩
    else
      ⟨[], Except.ok (some GoError.ErrSSHFxOpUnsupported)⟩

/-- Go `dirLister`. -/
abbrev dirLister := List FileInfo

/-- Go `permissionHandler.Filelist`. -/
def permissionHandler.Filelist (os : OS) (h : permissionHandler) (r : Request) :
    Exec (Option dirLister × Option GoError) :=
  match h.checkPermission r.Filepath h.listPerm with
  | some err =>
    match h.userConfigUsername with
    | Except.error p => ⟨[], Except.error p⟩
    | Except.ok _ => ⟨[], Except.ok (none, some err)⟩
  | none =>
    let name := filepath.Join [h.rootPath, r.Filepath]
    match os.err (FsCall.Open name) with
    | some err => ⟨[FsCall.Open name], Except.ok (none, some err)⟩
    | none =>
      -- `defer f.Close()` runs after the return value is set
      match os.err (FsCall.Readdir name (-1)) with
      | some err =>
        ⟨[FsCall.Open name, FsCall.Readdir name (-1), FsCall.Close name],
          Except.ok (none, some err)⟩
      | none =>
        ⟨[FsCall.Open name, FsCall.Readdir name (-1), FsCall.Close name],
          Except.ok (some (os.entries name), none)⟩

/-- Go builtin `copy(dst, src)`: overwrites the first `min(len(dst), len(src))` elements of
`dst` with those of `src`; returns the new contents of `dst` and the number copied. -/
def copy {α : Type} (dst src : List α) : List α × Nat :=
  let n := min dst.length src.length
  (src.take n ++ dst.drop n, n)

/-- Go `dirLister.ListAt`. Returns the new contents of the buffer `ls`, the count and the
error; the slice expression `l[offset:]` panics for a negative `offset`. -/
def dirLister.ListAt (l : dirLister) (ls : List FileInfo) (offset : Int) :
    Except Panic (List FileInfo × Nat × Option GoError) :=
  if offset ≥ (l.length : Int) then Except.ok (ls, 0, some GoError.EOF)
  else if offset < 0 then Except.error (Panic.sliceOutOfRange offset l.length)
  else
    match copy ls (l.drop offset.toNat) with
    | (ls1, n) =>
      if n < ls.length then Except.ok (ls1, n, some GoError.EOF)
      else Except.ok (ls1, n, none)

/-! ## `sftp/sftp_server/sftp_server.go` -/

/-- Go `SFTPServer` (its configuration; the SSH configuration holds only the callback
`authenticateUser` and the host key). -/
structure SFTPServer where
  cfg : Config

/-- Go `sftp.Handlers`. In Go the four slots hold pointers to a `permissionHandler`;
a handler is never written after construction, so the value stands for the pointer. -/
structure Handlers where
  FileGet : permissionHandler
  FilePut : permissionHandler
  FileCmd : permissionHandler
  FileList : permissionHandler
  deriving DecidableEq, Repr

/-- The loop of `authenticateUser` that fills `userMap`:
`for i := range s.cfg.Users { user := &s.cfg.Users[i]; userMap[user.Username] = user.Password }`. -/
def fillUserMap : List UserConfig → StrMap → StrMap
  | [], userMap => userMap
  | user :: users, userMap => fillUserMap users (userMap.set user.Username user.Password)

/-- Go `SFTPServer.authenticateUser`; `user` is `conn.User()` and `password` is
`string(password)`. -/
def SFTPServer.authenticateUser (s : SFTPServer) (user : String) (password : String) :
    Option ssh.Permissions × Option GoError :=
  let userMap := fillUserMap s.cfg.Users []
  let rejected : Option ssh.Permissions × Option GoError :=
    (none, some (GoError.errorf "password rejected for %q" [user]))
  -- Check if user exists and password matches
  match userMap.get? user with
  | some expectedPass =>
    if expectedPass = password then (some ⟨[("username", user)]⟩, none)
    else rejected
  | none => rejected

/-- The loop of `getUserConfig`. -/
def findUser : List UserConfig → String → Option UserConfig
  | [], _ => none
  | u :: users, username => if u.Username = username then some u else findUser users username

/-- Go `SFTPServer.getUserConfig`. -/
def SFTPServer.getUserConfig (s : SFTPServer) (username : String) : Option UserConfig :=
  findUser s.cfg.Users username

/-- Go index expression `a[i]`. -/
def index {α : Type} (a : List α) (i : Nat) : Except Panic α :=
  match a.get? i with
  | some x => Except.ok x
  | none => Except.error (Panic.indexOutOfRange i a.length)

/-- Go `SFTPServer.newPermissionHandler`. -/
def SFTPServer.newPermissionHandler (s : SFTPServer) (username : String) :
    Except Panic Handlers :=
  match s.getUserConfig username with
  | none =>
    -- Return a handler that denies all operations
    let denyHandler : permissionHandler :=
      { userConfig := none, rootPath := "", readPerm := false, writePerm := false,
        cmdPerm := false, listPerm := false }
    Except.ok ⟨denyHandler, denyHandler, denyHandler, denyHandler⟩
  | some userConfig => do
    let rootPath := filepath.Join [s.cfg.Server.RootPath, username]
    let readPerm := (← index userConfig.Permissions 0).Read
    let writePerm := (← index userConfig.Permissions 0).Write
    let cmdPerm := (← index userConfig.Permissions 0).Cmd
    let listPerm := (← index userConfig.Permissions 0).List
    let ph : permissionHandler :=
      { userConfig := some userConfig, rootPath := rootPath, readPerm := readPerm,
        writePerm := writePerm, cmdPerm := cmdPerm, listPerm := listPerm }
    Except.ok ⟨ph, ph, ph, ph⟩

/-! ## Channel requests (`handleChannelRequests`) -/

namespace ssh

/-- Go `ssh.Request`: the request type (field `Type` in Go, a reserved word here), whether
a reply is wanted, and the payload bytes (a byte is written as the character with that
code). -/
structure Request where
  ReqType : String
  WantReply : Bool
  Payload : List Char
  deriving DecidableEq, Repr

end ssh

/-- Go slice expression `a[i:]`: panics unless `i <= len(a)`. -/
def sliceFrom {α : Type} (a : List α) (i : Nat) : Except Panic (List α) :=
  if i ≤ a.length then Except.ok (a.drop i)
  else Except.error (Panic.sliceOutOfRange i a.length)

/-- What `handleChannelRequests` does to the channel and the SFTP library, in order. -/
inductive ChannelEvent where
  /-- The call `req.Reply(ok, nil)`. -/
  | Reply (ok : Bool)
  /-- The call `sftp.NewRequestServer(channel, handlers)`. -/
  | NewRequestServer (handlers : Handlers)
  /-- The call `server.Serve()`. -/
  | Serve
  /-- The deferred call `server.Close()`. -/
  | ServerClose
  /-- The deferred call `channel.Close()`. -/
  | ChannelClose
  deriving DecidableEq, Repr

/-- The run of `handleChannelRequests`: its events and either a normal return or the panic
that ended it. -/
structure ChannelRun where
  events : List ChannelEvent
  result : Except Panic Unit

/-- The loop `for req := range requests { switch req.Type ... }` of `handleChannelRequests`
over the requests that arrive before the channel is closed; `user` is `sshConn.User()`.
`server.Serve()` is taken to return (its error is only logged). -/
def handleRequestLoop (s : SFTPServer) (user : String) : List ssh.Request → ChannelRun
  | [] => ⟨[], Except.ok ()⟩
  | req :: requests =>
    if req.ReqType = "subsystem" then
      match sliceFrom req.Payload 4 with
      | Except.error p => ⟨[], Except.error p⟩
      | Except.ok name =>
        if String.mk name = "sftp" then
          -- Create a new SFTP server with our custom handler
          match s.newPermissionHandler user with
          | Except.error p => ⟨[ChannelEvent.Reply true], Except.error p⟩
          | Except.ok handlers =>
            ⟨[ChannelEvent.Reply true, ChannelEvent.NewRequestServer handlers,
              ChannelEvent.Serve, ChannelEvent.ServerClose], Except.ok ()⟩
        else handleRequestLoop s user requests
    else
      -- default: log.Printf("Received unknown request type %v", req.Type)
      handleRequestLoop s user requests

/-- Go `SFTPServer.handleChannelRequests`: the loop, then the deferred `channel.Close()`,
which also runs when the loop panics. -/
def SFTPServer.handleChannelRequests (s : SFTPServer) (requests : List ssh.Request)
    (user : String) : ChannelRun :=
  let run := handleRequestLoop s user requests
  ⟨run.events ++ [ChannelEvent.ChannelClose], run.result⟩

/-! ## The listing loop of a client

`handler.go` has no caller of `ListAt`; the loop below is the one the listing contract
describes: call `ListAt` with the same buffer, starting at an offset and advancing by the
returned count, until `io.EOF` is returned.
-/

/-- The entries collected by at most `calls` calls of `ListAt` from `offset` on with the
buffer `ls`; `none` when `io.EOF` has not been returned by then, or on a panic. -/
def listFrom (l : dirLister) : Nat → List FileInfo → Int → Option (List FileInfo)
  | 0, _, _ => none
  | calls + 1, ls, offset =>
    match l.ListAt ls offset with
    | Except.error _ => none
    | Except.ok (ls1, n, err) =>
      if err = some GoError.EOF then some (ls1.take n)
      else (listFrom l calls ls1 (offset + n)).map (fun rest => ls1.take n ++ rest)

/-! ## Example configurations and sessions -/

/-- A user with one blanket rule that grants everything. -/
def alice : UserConfig :=
  { Username := "alice", Password := "wonderland",
    Permissions := [{ Path := "/", Read := true, Write := true, Cmd := true, List := true }] }

/-- The user of the end-to-end scenario: read and list only; a second rule is present. -/
def bob : UserConfig :=
  { Username := "bob", Password := "builder",
    Permissions := [{ Path := "/", Read := true, Write := false, Cmd := false, List := true },
                    { Path := "/pub", Read := true, Write := true, Cmd := true, List := true }] }

/-- A user with write and command permission only. -/
def carol : UserConfig :=
  { Username := "carol", Password := "christmas",
    Permissions := [{ Path := "/", Read := false, Write := true, Cmd := true, List := false }] }

/-- A user record without any permission rule (`permissions: []` in the YAML file). -/
def dave : UserConfig :=
  { Username := "dave", Password := "secret", Permissions := [] }

/-- A server rooted at `/data` with the four users above. -/
def exampleServer : SFTPServer :=
  { cfg := { Server := { Host := "0.0.0.0", Port := 2022, RootPath := "/data" },
             Users := [alice, bob, carol, dave] } }

/-- A server without users. -/
def emptyServer : SFTPServer :=
  { cfg := { Server := { Host := "0.0.0.0", Port := 2022, RootPath := "/data" }, Users := [] } }

/-- The session of `alice` on `exampleServer`. -/
def aliceHandler : permissionHandler :=
  { userConfig := some alice, rootPath := "/data/alice", readPerm := true, writePerm := true,
    cmdPerm := true, listPerm := true }

/-- The session of `bob` on `exampleServer`. -/
def bobHandler : permissionHandler :=
  { userConfig := some bob, rootPath := "/data/bob", readPerm := true, writePerm := false,
    cmdPerm := false, listPerm := true }

/-- The session of `carol` on `exampleServer`. -/
def carolHandler : permissionHandler :=
  { userConfig := some carol, rootPath := "/data/carol", readPerm := false, writePerm := true,
    cmdPerm := true, listPerm := false }

/-- The handler `newPermissionHandler` builds for a user it does not find. -/
def denyHandler : permissionHandler :=
  { userConfig := none, rootPath := "", readPerm := false, writePerm := false,
    cmdPerm := false, listPerm := false }

/-- An operating system on which every call succeeds and every directory is empty. -/
def quietOS : OS := { err := fun _ => none, entries := fun _ => [] }

/-- Three directory entries. -/
def threeEntries : dirLister :=
  [{ Name := "a", Size := 1, IsDir := false }, { Name := "b", Size := 2, IsDir := false },
   { Name := "c", Size := 0, IsDir := true }]

/-- A buffer of two entries. -/
def twoSlots : List FileInfo :=
  [{ Name := "", Size := 0, IsDir := false }, { Name := "", Size := 0, IsDir := false }]

/-- A second record with the username `alice`: another password, no permission at all. -/
def aliceGuest : UserConfig :=
  { Username := "alice", Password := "guest",
    Permissions := [{ Path := "/", Read := false, Write := false, Cmd := false, List := false }] }

/-- A server whose user list has two records with the username `alice`. -/
def twoAlicesServer : SFTPServer :=
  { cfg := { Server := { Host := "0.0.0.0", Port := 2022, RootPath := "/data" },
             Users := [alice, aliceGuest] } }

/-- The subsystem request of an SFTP client: the length prefix `0 0 0 4`, then `sftp`. -/
def sftpRequest : ssh.Request :=
  { ReqType := "subsystem", WantReply := true,
    Payload := [Char.ofNat 0, Char.ofNat 0, Char.ofNat 0, Char.ofNat 4, 's', 'f', 't', 'p'] }

/-- A subsystem request with a payload of two bytes. -/
def shortRequest : ssh.Request :=
  { ReqType := "subsystem", WantReply := true, Payload := [Char.ofNat 0, Char.ofNat 0] }

/-- A request of another type. -/
def shellRequest : ssh.Request :=
  { ReqType := "shell", WantReply := true, Payload := [] }

/-! ## Step budgets of the path functions

Every iteration of the loops of `Clean` and `Rel` advances the read index, so the budgets
that `cleanChars` and `Rel` pass are enough: a larger budget gives the same result.
-/

namespace filepath

theorem takeWhile_length_pos (path : List Char) (r : Nat) (hr : r < path.length)
    (hs : ¬ isSep (idx path r) = true) :
    1 ≤ ((path.drop r).takeWhile (fun c => !isSep c)).length := by
  have hidx : idx path r = path[r] := by
    simp [idx, List.getD, List.getElem?_eq_getElem hr]
  rw [List.drop_eq_getElem_cons hr, List.takeWhile_cons]
  rw [hidx] at hs
  simp [hs]

theorem cleanLoop_fuel_succ (path : List Char) (rooted : Bool) (fuel : Nat) :
    ∀ (r : Nat) (out : List Char) (dotdot : Nat), path.length ≤ r + fuel →
      cleanLoop path rooted (fuel + 1) r out dotdot = cleanLoop path rooted fuel r out dotdot := by
  induction fuel with
  | zero =>
    intro r out dotdot h
    have : ¬ r < path.length := by omega
    simp [cleanLoop, this]
  | succ f ih =>
    intro r out dotdot h
    conv_lhs => rw [cleanLoop]
    conv_rhs => rw [cleanLoop]
    dsimp only
    refine ite_congr rfl (fun h1 => ?_) (fun _ => rfl)
    refine ite_congr rfl (fun _ => ih _ _ _ (by omega)) (fun h2 => ?_)
    refine ite_congr rfl (fun _ => ih _ _ _ (by omega)) (fun _ => ?_)
    refine ite_congr rfl (fun _ => ?_) (fun _ => ?_)
    · refine ite_congr rfl (fun _ => ih _ _ _ (by omega)) (fun _ => ?_)
      exact ite_congr rfl (fun _ => ih _ _ _ (by omega)) (fun _ => ih _ _ _ (by omega))
    · have hpos := takeWhile_length_pos path r h1 h2
      exact ih _ _ _ (by omega)

theorem cleanLoop_fuel_add (path : List Char) (rooted : Bool) (fuel extra r : Nat)
    (out : List Char) (dotdot : Nat) (h : path.length ≤ r + fuel) :
    cleanLoop path rooted (fuel + extra) r out dotdot =
      cleanLoop path rooted fuel r out dotdot := by
  induction extra with
  | zero => rfl
  | succ e ih =>
    rw [← Nat.add_assoc, cleanLoop_fuel_succ path rooted (fuel + e) r out dotdot (by omega), ih]

theorem le_skipElem (s : List Char) (i : Nat) : i ≤ skipElem s i := by
  unfold skipElem
  omega

theorem relLoop_fuel_succ (base targ : List Char) (fuel : Nat) :
    ∀ (b0 bi t0 ti : Nat), (base.length - bi) + (targ.length - ti) ≤ fuel →
      relLoop base targ (fuel + 1) b0 bi t0 ti = relLoop base targ fuel b0 bi t0 ti := by
  induction fuel with
  | zero =>
    intro b0 bi t0 ti h
    have h1 : ¬ bi < base.length := by omega
    have h2 : ¬ ti < targ.length := by omega
    simp [relLoop, h1, h2]
  | succ f ih =>
    intro b0 bi t0 ti h
    conv_lhs => rw [relLoop]
    conv_rhs => rw [relLoop]
    dsimp only
    refine ite_congr rfl (fun hc => ?_) (fun _ => rfl)
    refine ite_congr rfl (fun _ => rfl) (fun _ => ?_)
    have hb := le_skipElem base bi
    have ht := le_skipElem targ ti
    have hc2 : bi < base.length ∨ ti < targ.length := by simpa using hc
    refine ih _ _ _ _ ?_
    split_ifs <;> omega

theorem relLoop_fuel_add (base targ : List Char) (fuel extra b0 bi t0 ti : Nat)
    (h : (base.length - bi) + (targ.length - ti) ≤ fuel) :
    relLoop base targ (fuel + extra) b0 bi t0 ti = relLoop base targ fuel b0 bi t0 ti := by
  induction extra with
  | zero => rfl
  | succ e ih =>
    rw [← Nat.add_assoc, relLoop_fuel_succ base targ (fuel + e) b0 bi t0 ti (by omega), ih]

/-- Rows of the test table of `filepath.Rel` in the standard library, the last five from its
group of pairs that cannot be related lexically. -/
theorem Rel_library_examples :
    Rel "a/b" "a/b" = (".", none) ∧
    Rel "a/b/." "a/b" = (".", none) ∧
    Rel "ab/cd" "ab/cde" = ("../cde", none) ∧
    Rel "ab/cd" "ab/c" = ("../c", none) ∧
    Rel "a/b" "a/b/c/d" = ("c/d", none) ∧
    Rel "a/b" "a/b/../c" = ("../c", none) ∧
    Rel "a/b/../c" "a/b" = ("../b", none) ∧
    Rel "a/b/c" "a/c/d" = ("../../c/d", none) ∧
    Rel "a/b" "c/d" = ("../../c/d", none) ∧
    Rel "a/b/c/d" "a/b" = ("../..", none) ∧
    Rel "a/b/c/d/" "a/b/" = ("../..", none) ∧
    Rel "../../a/b" "../../a/b/c/d" = ("c/d", none) ∧
    Rel "/a/b" "/a/b/c/d" = ("c/d", none) ∧
    Rel "/a/b/c" "/a/c/d" = ("../../c/d", none) ∧
    Rel "/a/b/c/d/" "/a/b/" = ("../..", none) ∧
    Rel "/../../a/b" "/../../a/b/c/d" = ("c/d", none) ∧
    Rel "." "a/b" = ("a/b", none) ∧
    Rel "." ".." = ("..", none) ∧
    (Rel ".." ".").2 ≠ none ∧
    (Rel ".." "a").2 ≠ none ∧
    (Rel "../.." "..").2 ≠ none ∧
    (Rel "a" "/a").2 ≠ none ∧
    (Rel "/a" "a").2 ≠ none := by
  decide

/-! ### `Clean`, `Join` and `Rel` on rooted, cleaned paths

For a rooted, cleaned root with the elements `es` and a rooted, cleaned path with the
elements `qs`: the join is the rooted path with the elements `es ++ qs`, and its path
relative to the root is `q1/.../qn`, which does not begin with a `..` segment.
-/

end filepath

/-! ## Lemmas on `checkPermission` and the user lookup -/

theorem checkPermission_of_flag_false (h : permissionHandler) (path : String) :
    h.checkPermission path false = some GoError.ErrPermission := by
  unfold permissionHandler.checkPermission
  cases h.userConfig with
  | none => rfl
  | some uc =>
    simp only
    rcases filepath.Rel h.rootPath (filepath.Join [h.rootPath, path]) with ⟨rel, _ | e⟩ <;> rfl

theorem userConfigUsername_of_user (h : permissionHandler) (uc : UserConfig)
    (hu : h.userConfig = some uc) : h.userConfigUsername = Except.ok uc.Username := by
  unfold permissionHandler.userConfigUsername
  rw [hu]

theorem findUser_eq_none (users : List UserConfig) (username : String) :
    findUser users username = none ↔ ∀ u ∈ users, u.Username ≠ username := by
  induction users with
  | nil => simp [findUser]
  | cons u us ih =>
    by_cases hu : u.Username = username
    · simp [findUser, hu]
    · simp [findUser, hu, ih]

theorem findUser_eq_some (users : List UserConfig) (username : String) (uc : UserConfig)
    (hf : findUser users username = some uc) : uc ∈ users ∧ uc.Username = username := by
  induction users with
  | nil => simp [findUser] at hf
  | cons u us ih =>
    by_cases hu : u.Username = username
    · simp [findUser, hu] at hf
      subst hf
      exact ⟨List.mem_cons_self _ _, hu⟩
    · simp [findUser, hu] at hf
      exact ⟨List.mem_cons_of_mem _ (ih hf).1, (ih hf).2⟩

/-! ## Path confinement -/

/-- C2. In a session with a resolved user, for every request (any path, any method, any
answer of the operating system): `Fileread` without read permission, `Filewrite` without
write permission, `Filelist` without list permission and `Filecmd` without command
permission return `os.ErrPermission` and make no call into package `os`, whatever the other
three flags are. -/
theorem handlers_deny_when_flag_false (os : OS) (h : permissionHandler) (r : Request)
    (uc : UserConfig) (hu : h.userConfig = some uc) :
    (h.readPerm = false →
      h.Fileread os r = ⟨[], Except.ok (none, some GoError.ErrPermission)⟩) ∧
    (h.writePerm = false →
      h.Filewrite os r = ⟨[], Except.ok (none, some GoError.ErrPermission)⟩) ∧
    (h.listPerm = false →
      h.Filelist os r = ⟨[], Except.ok (none, some GoError.ErrPermission)⟩) ∧
    (h.cmdPerm = false →
      h.Filecmd os r = ⟨[], Except.ok (some GoError.ErrPermission)⟩) := by
  refine ⟨fun hf => ?_, fun hf => ?_, fun hf => ?_, fun hf => ?_⟩
  · unfold permissionHandler.Fileread
    rw [hf, checkPermission_of_flag_false, userConfigUsername_of_user h uc hu]
  · unfold permissionHandler.Filewrite
    rw [hf, checkPermission_of_flag_false, userConfigUsername_of_user h uc hu]
  · unfold permissionHandler.Filelist
    rw [hf, checkPermission_of_flag_false, userConfigUsername_of_user h uc hu]
  · unfold permissionHandler.Filecmd
    rw [hf, checkPermission_of_flag_false, userConfigUsername_of_user h uc hu]

/-- C2 at concrete sessions: `bob` (read and list only) is refused a write and a rename,
`carol` (write and command only) is refused a read and a listing, also on a path that
leaves the root. -/
theorem handlers_deny_when_flag_false_witness :
    bobHandler.Filewrite quietOS ⟨"Put", "/new.txt", ""⟩ =
      ⟨[], Except.ok (none, some GoError.ErrPermission)⟩ ∧
    bobHandler.Filecmd quietOS ⟨"Rename", "/new.txt", "/old.txt"⟩ =
      ⟨[], Except.ok (some GoError.ErrPermission)⟩ ∧
    carolHandler.Fileread quietOS ⟨"Get", "../../etc/passwd", ""⟩ =
      ⟨[], Except.ok (none, some GoError.ErrPermission)⟩ ∧
    carolHandler.Filelist quietOS ⟨"List", "/", ""⟩ =
      ⟨[], Except.ok (none, some GoError.ErrPermission)⟩ :=
  ⟨(handlers_deny_when_flag_false quietOS bobHandler ⟨"Put", "/new.txt", ""⟩ bob rfl).2.1 rfl,
   (handlers_deny_when_flag_false quietOS bobHandler ⟨"Rename", "/new.txt", "/old.txt"⟩
      bob rfl).2.2.2 rfl,
   (handlers_deny_when_flag_false quietOS carolHandler ⟨"Get", "../../etc/passwd", ""⟩
      carol rfl).1 rfl,
   (handlers_deny_when_flag_false quietOS carolHandler ⟨"List", "/", ""⟩ carol rfl).2.2.1 rfl⟩

/-! ## The session of an unresolved user -/

theorem StrMap.get?_set (m : StrMap) (k v k1 : String) :
    (m.set k v).get? k1 = if k = k1 then some v else m.get? k1 := by
  induction m with
  | nil => simp [StrMap.set, StrMap.get?]
  | cons e m ih =>
    obtain ⟨k2, v2⟩ := e
    by_cases h2 : k2 = k
    · subst h2
      by_cases h1 : k2 = k1 <;> simp [StrMap.set, StrMap.get?, h1]
    · by_cases h1 : k2 = k1
      · subst h1
        have h3 : ¬ k = k2 := fun h => h2 h.symm
        simp [StrMap.set, StrMap.get?, h2, h3]
      · simp [StrMap.set, StrMap.get?, h2, h1, ih]

/-- With pairwise distinct usernames the filled map answers like the first-match lookup. -/
theorem fillUserMap_get?_of_nodup (users : List UserConfig) (userMap : StrMap) (k : String)
    (hnd : (users.map UserConfig.Username).Nodup) :
    (fillUserMap users userMap).get? k =
      match findUser users k with
      | some u => some u.Password
      | none => userMap.get? k := by
  induction users generalizing userMap with
  | nil => simp [fillUserMap, findUser]
  | cons u us ih =>
    rw [List.map_cons, List.nodup_cons] at hnd
    rw [fillUserMap, ih _ hnd.2, findUser]
    by_cases hu : u.Username = k
    · have hnone : findUser us k = none := by
        rw [findUser_eq_none]
        intro w hw hwk
        exact hnd.1 (List.mem_map.mpr ⟨w, hw, hwk.trans hu.symm⟩)
      simp [hnone, hu, StrMap.get?_set]
    · cases hf : findUser us k with
      | none => simp [hu, StrMap.get?_set]
      | some w => simp [hu]

theorem findUser_of_mem_nodup (users : List UserConfig) (u : UserConfig) (hmem : u ∈ users)
    (hnd : (users.map UserConfig.Username).Nodup) : findUser users u.Username = some u := by
  induction users with
  | nil => simp at hmem
  | cons w ws ih =>
    rw [List.map_cons, List.nodup_cons] at hnd
    rcases List.mem_cons.mp hmem with h | h
    · subst h
      simp [findUser]
    · have hne : w.Username ≠ u.Username := fun he =>
        hnd.1 (List.mem_map.mpr ⟨u, h, he.symm⟩)
      simp [findUser, hne, ih h hnd.2]

/-- Every rejection of `authenticateUser` is the same pair: no permissions and the error
`fmt.Errorf("password rejected for %q", user)`. -/
theorem authenticateUser_cases (s : SFTPServer) (user password : String) :
    s.authenticateUser user password = (some ⟨[("username", user)]⟩, none) ∨
    s.authenticateUser user password =
      (none, some (GoError.errorf "password rejected for %q" [user])) := by
  unfold SFTPServer.authenticateUser
  simp only
  cases (fillUserMap s.cfg.Users []).get? user with
  | none => exact Or.inr rfl
  | some expectedPass =>
    by_cases hp : expectedPass = password
    · simp [hp]
    · simp [hp]

/-- C4. For a configuration with pairwise distinct usernames: `authenticateUser` accepts
`(user, password)`, returning a nil error, exactly when the user list has a record with
that username and that password; on acceptance the permissions carry the extension
`username = user`; a username absent from the list is rejected with an error for every
password. -/
theorem authenticateUser_exact_match (s : SFTPServer) (user password : String)
    (hnd : (s.cfg.Users.map UserConfig.Username).Nodup) :
    ((s.authenticateUser user password).2 = none ↔
      ∃ u ∈ s.cfg.Users, u.Username = user ∧ u.Password = password) ∧
    ((s.authenticateUser user password).2 = none →
      s.authenticateUser user password = (some ⟨[("username", user)]⟩, none)) ∧
    ((∀ u ∈ s.cfg.Users, u.Username ≠ user) →
      s.authenticateUser user password =
        (none, some (GoError.errorf "password rejected for %q" [user]))) := by
  have hmap := fillUserMap_get?_of_nodup s.cfg.Users [] user hnd
  have hacc : (s.authenticateUser user password).2 = none ↔
      ∃ u ∈ s.cfg.Users, u.Username = user ∧ u.Password = password := by
    unfold SFTPServer.authenticateUser
    simp only
    rw [hmap]
    cases hf : findUser s.cfg.Users user with
    | none =>
      have habs := (findUser_eq_none s.cfg.Users user).mp hf
      simp only [StrMap.get?]
      constructor
      · intro h
        simp at h
      · rintro ⟨u, hu, hname, _⟩
        exact absurd hname (habs u hu)
    | some w =>
      have hw := findUser_eq_some s.cfg.Users user w hf
      simp only
      constructor
      · intro h
        by_cases hp : w.Password = password
        · exact ⟨w, hw.1, hw.2, hp⟩
        · simp [hp] at h
      · rintro ⟨u, hu, hname, hpass⟩
        have hfu := findUser_of_mem_nodup s.cfg.Users u hu hnd
        rw [hname, hf] at hfu
        have hwu : w = u := Option.some.inj hfu
        subst hwu
        simp [hpass]
  refine ⟨hacc, ?_, ?_⟩
  · intro h
    rcases authenticateUser_cases s user password with hc | hc
    · exact hc
    · rw [hc] at h
      simp at h
  · intro habs
    rcases authenticateUser_cases s user password with hc | hc
    · have h2 : (s.authenticateUser user password).2 = none := by rw [hc]
      obtain ⟨u, hu, hname, _⟩ := hacc.mp h2
      exact absurd hname (habs u hu)
    · exact hc

/-- C4 on the example server: `bob` is accepted with his password and only with it, and
`eve`, who is not in the list, is rejected. -/
theorem authenticateUser_exact_match_witness :
    (exampleServer.cfg.Users.map UserConfig.Username).Nodup ∧
    exampleServer.authenticateUser "bob" "builder" = (some ⟨[("username", "bob")]⟩, none) ∧
    (exampleServer.authenticateUser "bob" "Builder").2 ≠ none ∧
    exampleServer.authenticateUser "eve" "builder" =
      (none, some (GoError.errorf "password rejected for %q" ["eve"])) :=
  ⟨by decide,
   (authenticateUser_exact_match exampleServer "bob" "builder" (by decide)).2.1
     ((authenticateUser_exact_match exampleServer "bob" "builder" (by decide)).1.mpr
       ⟨bob, by decide, rfl, rfl⟩),
   fun h => absurd ((authenticateUser_exact_match exampleServer "bob" "Builder"
     (by decide)).1.mp h) (by decide),
   (authenticateUser_exact_match exampleServer "eve" "builder" (by decide)).2.2 (by decide)⟩

/-- C9. Whenever `authenticateUser` rejects a username (returns a non-nil error), under any
two configurations and any two passwords, the two results are the same pair: no permissions
and the error `fmt.Errorf("password rejected for %q", user)`, which is built from the
supplied username alone. -/
theorem authenticateUser_failure_uniform (s1 s2 : SFTPServer) (user pw1 pw2 : String)
    (h1 : (s1.authenticateUser user pw1).2 ≠ none)
    (h2 : (s2.authenticateUser user pw2).2 ≠ none) :
    s1.authenticateUser user pw1 = s2.authenticateUser user pw2 ∧
    s1.authenticateUser user pw1 =
      (none, some (GoError.errorf "password rejected for %q" [user])) := by
  have e1 : s1.authenticateUser user pw1 =
      (none, some (GoError.errorf "password rejected for %q" [user])) := by
    rcases authenticateUser_cases s1 user pw1 with hc | hc
    · rw [hc] at h1
      exact absurd rfl h1
    · exact hc
  have e2 : s2.authenticateUser user pw2 =
      (none, some (GoError.errorf "password rejected for %q" [user])) := by
    rcases authenticateUser_cases s2 user pw2 with hc | hc
    · rw [hc] at h2
      exact absurd rfl h2
    · exact hc
  exact ⟨e1.trans e2.symm, e1⟩

/-- C9 at two rejections of `bob`: on a server without users (the username is absent) and on
the example server with a wrong password (the username exists). -/
theorem authenticateUser_failure_uniform_witness :
    (∀ u ∈ emptyServer.cfg.Users, u.Username ≠ "bob") ∧
    (∃ u ∈ exampleServer.cfg.Users, u.Username = "bob") ∧
    emptyServer.authenticateUser "bob" "builder" =
      exampleServer.authenticateUser "bob" "wrong" :=
  ⟨by decide, ⟨bob, by decide, rfl⟩,
   (authenticateUser_failure_uniform emptyServer exampleServer "bob" "builder" "wrong"
     (by decide) (by decide)).1⟩

/-! ## Rename -/

/-- C6, what the code does. For a user record whose permission-rule list is empty,
`newPermissionHandler` ends in an index-out-of-range panic at `userConfig.Permissions[0]`
and returns no handlers. -/
theorem newPermissionHandler_panics_without_rules (s : SFTPServer) (username : String)
    (userConfig : UserConfig) (hfound : s.getUserConfig username = some userConfig)
    (hempty : userConfig.Permissions = []) :
    s.newPermissionHandler username = Except.error (Panic.indexOutOfRange 0 0) := by
  unfold SFTPServer.newPermissionHandler
  rw [hfound]
  simp only [hempty, index]
  rfl

/-- C6 at the failing input: the user `dave` of the example server has no permission rule. -/
theorem newPermissionHandler_panics_without_rules_witness :
    exampleServer.getUserConfig "dave" = some dave ∧ dave.Permissions = [] ∧
    exampleServer.newPermissionHandler "dave" = Except.error (Panic.indexOutOfRange 0 0) :=
  ⟨by decide, rfl,
   newPermissionHandler_panics_without_rules exampleServer "dave" dave (by decide) rfl⟩

/-- C10. For a username whose record (the first one with that username) has a non-empty
permission-rule list, `newPermissionHandler` returns handlers whose four slots hold one and
the same handler; its root path is `filepath.Join(RootPath, username)`, its user record is
the record found, and its four flags are the `Read`, `Write`, `Cmd` and `List` fields of the
record's first rule, whatever the later rules are. -/
theorem newPermissionHandler_session (s : SFTPServer) (username : String)
    (userConfig : UserConfig) (rule : Permissions) (rules : List Permissions)
    (hfound : s.getUserConfig username = some userConfig)
    (hrules : userConfig.Permissions = rule :: rules) :
    let ph : permissionHandler :=
      { userConfig := some userConfig,
        rootPath := filepath.Join [s.cfg.Server.RootPath, username],
        readPerm := rule.Read, writePerm := rule.Write, cmdPerm := rule.Cmd,
        listPerm := rule.List }
    s.newPermissionHandler username =
      Except.ok { FileGet := ph, FilePut := ph, FileCmd := ph, FileList := ph } ∧
    userConfig ∈ s.cfg.Users ∧ userConfig.Username = username := by
  have hmem := findUser_eq_some s.cfg.Users username userConfig hfound
  refine ⟨?_, hmem.1, hmem.2⟩
  unfold SFTPServer.newPermissionHandler
  rw [hfound]
  simp only [hrules, index]
  rfl

/-- C10 on the example server: the session of `bob` is `bobHandler` in all four slots; his
second rule, which grants everything, plays no part. -/
theorem newPermissionHandler_session_witness :
    exampleServer.getUserConfig "bob" = some bob ∧
    exampleServer.newPermissionHandler "bob" =
      Except.ok ⟨bobHandler, bobHandler, bobHandler, bobHandler⟩ :=
  ⟨by decide,
   (newPermissionHandler_session exampleServer "bob" bob
     { Path := "/", Read := true, Write := false, Cmd := false, List := true }
     [{ Path := "/pub", Read := true, Write := true, Cmd := true, List := true }]
     (by decide) rfl).1⟩

/-! ## Directory listing -/

theorem ListAt_of_le (l : dirLister) (ls : List FileInfo) (k : Nat) (hk : l.length ≤ k) :
    l.ListAt ls (k : Int) = Except.ok (ls, 0, some GoError.EOF) := by
  unfold dirLister.ListAt
  have h : (k : Int) ≥ (l.length : Int) := by exact_mod_cast hk
  rw [if_pos h]

theorem ListAt_of_lt (l : dirLister) (ls : List FileInfo) (k : Nat) (hk : k < l.length) :
    l.ListAt ls (k : Int) =
      Except.ok ((l.drop k).take (min ls.length (l.length - k)) ++
          ls.drop (min ls.length (l.length - k)),
        min ls.length (l.length - k),
        if min ls.length (l.length - k) < ls.length then some GoError.EOF else none) := by
  unfold dirLister.ListAt
  have h1 : ¬ ((k : Int) ≥ (l.length : Int)) := by
    intro h
    have : l.length ≤ k := by exact_mod_cast h
    omega
  have h2 : ¬ ((k : Int) < 0) := by omega
  rw [if_neg h1, if_neg h2]
  simp only [copy, Int.toNat_ofNat, List.length_drop]
  by_cases hn : min ls.length (l.length - k) < ls.length
  · rw [if_pos hn, if_pos hn]
  · rw [if_neg hn, if_neg hn]

/-- C7. For a non-negative offset, `ListAt(ls, offset)` returns `(0, io.EOF)` and leaves
`ls` as it is when `offset >= len(l)`; otherwise it returns
`n = min(len(ls), len(l) - offset)`, the buffer then has `l[offset+i]` at every `i < n` and
is unchanged from `n` on (and keeps its length), and the error is `io.EOF` exactly when
`n < len(ls)` and nil otherwise. -/
theorem ListAt_spec (l : dirLister) (ls : List FileInfo) (offset : Int) (hoff : 0 ≤ offset) :
    ((l.length : Int) ≤ offset →
      l.ListAt ls offset = Except.ok (ls, 0, some GoError.EOF)) ∧
    (offset < (l.length : Int) →
      ∃ ls1 n err, l.ListAt ls offset = Except.ok (ls1, n, err) ∧
        n = min ls.length (l.length - offset.toNat) ∧
        ls1.length = ls.length ∧
        (∀ i, i < n → ls1[i]? = l[offset.toNat + i]?) ∧
        ls1.drop n = ls.drop n ∧
        (err = some GoError.EOF ↔ n < ls.length) ∧
        (err = none ↔ ¬ n < ls.length)) := by
  obtain ⟨k, rfl⟩ := Int.eq_ofNat_of_zero_le hoff
  constructor
  · intro h
    exact ListAt_of_le l ls k (by exact_mod_cast h)
  · intro h
    have hk : k < l.length := by exact_mod_cast h
    have hlen : ((l.drop k).take (min ls.length (l.length - k))).length =
        min ls.length (l.length - k) := by
      rw [List.length_take, List.length_drop]
      omega
    refine ⟨_, _, _, ListAt_of_lt l ls k hk, ?_, ?_, ?_, ?_, ?_, ?_⟩
    · simp
    · rw [List.length_append, hlen, List.length_drop]
      omega
    · intro i hi
      rw [List.getElem?_append_left (by rw [hlen]; exact hi), List.getElem?_take, if_pos hi,
        List.getElem?_drop]
      simp
    · exact List.drop_left' hlen
    · by_cases hn : min ls.length (l.length - k) < ls.length <;> simp [hn]
    · by_cases hn : min ls.length (l.length - k) < ls.length <;> simp [hn]

/-- C7 on three entries and a buffer of two: from offset 1 both slots are filled and the
error is nil; from offset 2 one slot is filled, the other is left, and the error is
`io.EOF`; at offset 3 nothing is copied and the error is `io.EOF`. -/
theorem ListAt_spec_witness :
    threeEntries.ListAt twoSlots 1 = Except.ok (threeEntries.drop 1, 2, none) ∧
    threeEntries.ListAt twoSlots 2 =
      Except.ok (threeEntries.drop 2 ++ twoSlots.drop 1, 1, some GoError.EOF) ∧
    threeEntries.ListAt twoSlots 3 = Except.ok (twoSlots, 0, some GoError.EOF) :=
  ⟨rfl, rfl, (ListAt_spec threeEntries twoSlots 3 (by decide)).1 (by decide)⟩

/-- C8. With a buffer of at least one slot, the listing loop started at any offset
`k <= len(l)` gets `io.EOF` within `len(l) - k + 1` calls of `ListAt`, and the chunks it
has collected by then are exactly `l[k:]`, in order; started at offset 0 they are exactly
`l`. -/
theorem listFrom_restartable (l : dirLister) (ls : List FileInfo) (hb : 1 ≤ ls.length) :
    listFrom l (l.length + 1) ls 0 = some l ∧
    ∀ k calls : Nat, k ≤ l.length → l.length - k < calls →
      listFrom l calls ls (k : Int) = some (l.drop k) := by
  have key : ∀ calls : Nat, ∀ (buf : List FileInfo) (k : Nat), 1 ≤ buf.length →
      k ≤ l.length → l.length - k < calls → listFrom l calls buf (k : Int) = some (l.drop k) := by
    intro calls
    induction calls with
    | zero => intro buf k _ _ h; omega
    | succ c ih =>
      intro buf k hbuf hk hc
      unfold listFrom
      by_cases hlt : k < l.length
      · rw [ListAt_of_lt l buf k hlt]
        simp only
        by_cases hn : min buf.length (l.length - k) < buf.length
        · have hmin : min buf.length (l.length - k) = l.length - k := by omega
          rw [if_pos hn, if_pos rfl, hmin, List.take_left']
          · rw [List.take_of_length_le (by rw [List.length_drop])]
          · rw [List.length_take, List.length_drop]
            omega
        · have hmin : min buf.length (l.length - k) = buf.length := by omega
          have hne : ¬ ((none : Option GoError) = some GoError.EOF) := by simp
          rw [if_neg hn, if_neg hne, hmin]
          have hcast : ((k : Int) + ((buf.length : Nat) : Int)) = ((k + buf.length : Nat) : Int) := by
            push_cast
            rfl
          have htl : ((l.drop k).take buf.length).length = buf.length := by
            rw [List.length_take, List.length_drop]
            omega
          rw [hcast, ih _ (k + buf.length) (by
              rw [List.length_append, htl, List.length_drop]
              omega) (by omega) (by omega)]
          rw [Option.map_some', List.take_left' htl, ← List.drop_drop, List.take_append_drop]
      · have hkl : k = l.length := by omega
        rw [ListAt_of_le l buf k (by omega)]
        simp [hkl]
  exact ⟨by simpa using key (l.length + 1) ls 0 hb (Nat.zero_le _) (by omega),
    fun k calls hk hc => key calls ls k hb hk hc⟩

/-- C8 on three entries and a buffer of two: the loop from offset 0 returns the three
entries, and restarted at offset 1 it returns the last two. -/
theorem listFrom_restartable_witness :
    listFrom threeEntries 4 twoSlots 0 = some threeEntries ∧
    listFrom threeEntries 3 twoSlots 1 = some (threeEntries.drop 1) :=
  ⟨(listFrom_restartable threeEntries twoSlots (by decide)).1,
   (listFrom_restartable threeEntries twoSlots (by decide)).2 1 3 (by decide) (by decide)⟩

/-! ## Channel requests -/

/-- The request server is created only at a `subsystem` request whose payload has at least
four bytes and reads `sftp` after them. -/
theorem handleRequestLoop_dispatch (s : SFTPServer) (user : String)
    (requests : List ssh.Request) (handlers : Handlers)
    (hev : ChannelEvent.NewRequestServer handlers ∈ (handleRequestLoop s user requests).events) :
    ∃ req ∈ requests, req.ReqType = "subsystem" ∧ 4 ≤ req.Payload.length ∧
      String.mk (req.Payload.drop 4) = "sftp" ∧
      s.newPermissionHandler user = Except.ok handlers := by
  induction requests with
  | nil => simp [handleRequestLoop] at hev
  | cons req rest ih =>
    unfold handleRequestLoop at hev
    by_cases ht : req.ReqType = "subsystem"
    · rw [if_pos ht] at hev
      by_cases hl : 4 ≤ req.Payload.length
      · simp only [sliceFrom, if_pos hl] at hev
        by_cases hn : String.mk (req.Payload.drop 4) = "sftp"
        · rw [if_pos hn] at hev
          cases hh : s.newPermissionHandler user with
          | error p =>
            rw [hh] at hev
            simp at hev
          | ok hs =>
            rw [hh] at hev
            simp at hev
            exact ⟨req, List.mem_cons_self _ _, ht, hl, hn, by rw [hev]⟩
        · rw [if_neg hn] at hev
          obtain ⟨r, hr, h⟩ := ih hev
          exact ⟨r, List.mem_cons_of_mem _ hr, h⟩
      · simp [sliceFrom, hl] at hev
    · rw [if_neg ht] at hev
      obtain ⟨r, hr, h⟩ := ih hev
      exact ⟨r, List.mem_cons_of_mem _ hr, h⟩

/-- C11, at the failing inputs. A `subsystem` request with a payload of two bytes makes
`handleChannelRequests` end in a slice-bounds panic at `req.Payload[4:]`, before any reply;
only the deferred `channel.Close()` runs. The proper `sftp` request for the user `dave`,
whose record has no permission rule, ends in the index panic of `newPermissionHandler`
after the reply. For the user `bob` the same request starts the request server with his
handlers and returns. -/
theorem handleChannelRequests_short_payload_panics :
    exampleServer.handleChannelRequests [shellRequest, shortRequest, sftpRequest] "bob" =
      ⟨[ChannelEvent.ChannelClose], Except.error (Panic.sliceOutOfRange 4 2)⟩ ∧
    exampleServer.handleChannelRequests [shellRequest, sftpRequest] "dave" =
      ⟨[ChannelEvent.Reply true, ChannelEvent.ChannelClose],
        Except.error (Panic.indexOutOfRange 0 0)⟩ ∧
    exampleServer.handleChannelRequests [shellRequest, sftpRequest] "bob" =
      ⟨[ChannelEvent.Reply true,
        ChannelEvent.NewRequestServer ⟨bobHandler, bobHandler, bobHandler, bobHandler⟩,
        ChannelEvent.Serve, ChannelEvent.ServerClose, ChannelEvent.ChannelClose],
        Except.ok ()⟩ :=
  ⟨rfl, rfl, rfl⟩

/-! ## Authentication and the user record of the session -/

theorem fillUserMap_get?_some (users : List UserConfig) (userMap : StrMap) (k v : String)
    (h : (fillUserMap users userMap).get? k = some v) :
    (∃ u ∈ users, u.Username = k) ∨ userMap.get? k = some v := by
  induction users generalizing userMap with
  | nil => exact Or.inr h
  | cons u us ih =>
    rw [fillUserMap] at h
    rcases ih _ h with ⟨w, hw, hk⟩ | hset
    · exact Or.inl ⟨w, List.mem_cons_of_mem _ hw, hk⟩
    · rw [StrMap.get?_set] at hset
      by_cases hu : u.Username = k
      · exact Or.inl ⟨u, List.mem_cons_self _ _, hu⟩
      · rw [if_neg hu] at hset
        exact Or.inr hset

theorem authenticateUser_accept_get? (s : SFTPServer) (user password : String)
    (hacc : (s.authenticateUser user password).2 = none) :
    (fillUserMap s.cfg.Users []).get? user = some password := by
  unfold SFTPServer.authenticateUser at hacc
  simp only at hacc
  cases hg : (fillUserMap s.cfg.Users []).get? user with
  | none =>
    rw [hg] at hacc
    simp at hacc
  | some expectedPass =>
    rw [hg] at hacc
    by_cases hp : expectedPass = password
    · rw [hp]
    · simp [hp] at hacc

/-- With pairwise distinct usernames, the record of the session is the record that was
authenticated. -/
theorem getUserConfig_password_of_nodup (s : SFTPServer) (user password : String)
    (hnd : (s.cfg.Users.map UserConfig.Username).Nodup)
    (hacc : (s.authenticateUser user password).2 = none) :
    ∃ uc, s.getUserConfig user = some uc ∧ uc.Username = user ∧ uc.Password = password := by
  have hg := authenticateUser_accept_get? s user password hacc
  rw [fillUserMap_get?_of_nodup s.cfg.Users [] user hnd] at hg
  unfold SFTPServer.getUserConfig
  cases hf : findUser s.cfg.Users user with
  | none =>
    rw [hf] at hg
    simp [StrMap.get?] at hg
  | some uc =>
    rw [hf] at hg
    exact ⟨uc, rfl, (findUser_eq_some _ _ _ hf).2, Option.some.inj hg⟩

/-- C12, at the failing input. The user list has two records with the username `alice`:
the first with the password `wonderland` and every permission, the second with the
password `guest` and none. `authenticateUser` accepts `(alice, guest)` (the map keeps the
last record) and rejects `(alice, wonderland)`; `getUserConfig("alice")` returns the first
record, whose password is not `guest`, and the session gets its permissions. -/
theorem getUserConfig_differs_from_authenticated_record :
    twoAlicesServer.authenticateUser "alice" "guest" =
      (some ⟨[("username", "alice")]⟩, none) ∧
    (twoAlicesServer.authenticateUser "alice" "wonderland").2 ≠ none ∧
    twoAlicesServer.getUserConfig "alice" = some alice ∧
    alice.Password ≠ "guest" ∧
    twoAlicesServer.newPermissionHandler "alice" =
      Except.ok ⟨aliceHandler, aliceHandler, aliceHandler, aliceHandler⟩ :=
  ⟨by decide, by decide, by decide, by decide, rfl⟩

/-- C13. For every configuration, when `authenticateUser` accepts `(user, password)`,
`getUserConfig(user)` returns a record of the user list with that username, and
`newPermissionHandler(user)` does not return the deny-all handlers: every handler it
returns carries that record. -/
theorem authenticated_user_resolves (s : SFTPServer) (user password : String)
    (hacc : (s.authenticateUser user password).2 = none) :
    (s.getUserConfig user).map UserConfig.Username = some user ∧
    (∀ uc, s.getUserConfig user = some uc → uc ∈ s.cfg.Users) ∧
    s.newPermissionHandler user ≠
      Except.ok ⟨denyHandler, denyHandler, denyHandler, denyHandler⟩ ∧
    ∀ handlers, s.newPermissionHandler user = Except.ok handlers →
      handlers.FileGet.userConfig = s.getUserConfig user ∧
      handlers.FilePut.userConfig = s.getUserConfig user ∧
      handlers.FileCmd.userConfig = s.getUserConfig user ∧
      handlers.FileList.userConfig = s.getUserConfig user := by
  have hg := authenticateUser_accept_get? s user password hacc
  have hex : ∃ u ∈ s.cfg.Users, u.Username = user := by
    rcases fillUserMap_get?_some s.cfg.Users [] user password hg with h | h
    · exact h
    · simp [StrMap.get?] at h
  have hsome : ∃ uc, s.getUserConfig user = some uc := by
    unfold SFTPServer.getUserConfig
    cases hf : findUser s.cfg.Users user with
    | none =>
      obtain ⟨u, hu, hname⟩ := hex
      exact absurd hname ((findUser_eq_none _ _).mp hf u hu)
    | some uc => exact ⟨uc, rfl⟩
  obtain ⟨uc, hf⟩ := hsome
  have hmem := findUser_eq_some s.cfg.Users user uc hf
  have hret : ∀ handlers, s.newPermissionHandler user = Except.ok handlers →
      handlers.FileGet.userConfig = some uc ∧ handlers.FilePut.userConfig = some uc ∧
      handlers.FileCmd.userConfig = some uc ∧ handlers.FileList.userConfig = some uc := by
    intro handlers hh
    unfold SFTPServer.newPermissionHandler at hh
    rw [hf] at hh
    cases hp : uc.Permissions with
    | nil =>
      simp only [hp, index] at hh
      exact absurd hh (by intro h; cases h)
    | cons rule rules =>
      simp only [hp, index] at hh
      have hh2 := Except.ok.inj hh
      subst hh2
      exact ⟨rfl, rfl, rfl, rfl⟩
  refine ⟨by rw [hf, Option.map_some', hmem.2], ?_, ?_, ?_⟩
  · intro uc2 h2
    rw [hf] at h2
    exact Option.some.inj h2 ▸ hmem.1
  · intro hdeny
    have h := (hret _ hdeny).1
    simp [denyHandler] at h
  · intro handlers hh
    rw [hf]
    exact hret handlers hh

/-- C13 on the example server and on the server with two records for `alice`: the accepted
pairs `(bob, builder)` and `(alice, guest)` resolve to a record with that username. -/
theorem authenticated_user_resolves_witness :
    (exampleServer.authenticateUser "bob" "builder").2 = none ∧
    (exampleServer.getUserConfig "bob").map UserConfig.Username = some "bob" ∧
    (twoAlicesServer.authenticateUser "alice" "guest").2 = none ∧
    (twoAlicesServer.getUserConfig "alice").map UserConfig.Username = some "alice" :=
  ⟨by decide, (authenticated_user_resolves exampleServer "bob" "builder" (by decide)).1,
   by decide, (authenticated_user_resolves twoAlicesServer "alice" "guest" (by decide)).1⟩

end Sftp
